import Mathlib

/-!
Verification of the value algebra, mixin argument binding, parser helpers and
builtin registry of a Sass-to-CSS compiler, against its specification.

The embedding follows `src/value/mod.rs`, `src/atrule/mixin.rs`,
`src/parse/common.rs` and `src/builtin/mod.rs`. Types that those files use
but whose sources are not part of the shown tree (`Op`, `Unit`, `Number`,
`Scope`, `CallArgs`, the arithmetic in `src/value/ops.rs`, the unit
conversion table) are modelled from the specification; each such definition
says so in its doc comment.

The functions `Value::eval`, `Value::cmp`, `Value::equals`, `Value::is_true`
and the `Display` implementation are mutually recursive in the source with a
nontrivial termination argument, so the embedding indexes them by a fuel
parameter: `none` models divergence, a panic (`unreachable!` / `todo!` /
`process::exit`) or fuel exhaustion, `some (Except.error e)` a returned
`SassResult` error, and `some (Except.ok v)` a successful result.
-/

namespace Grass

/-- Source: `QuoteKind`, declared in `src/common.rs` (not among the shown
sources); all three variants — no quotes, single quotes, double quotes —
appear in `src/value/mod.rs`, and the spec lists exactly these. -/
inductive QuoteKind where
  | None | Single | Double
deriving DecidableEq, Repr

/-- Source: the operator type `Op`, declared in `src/common.rs` (not among
the shown sources); the variants are exactly those matched in
`Value::eval`. -/
inductive Op where
  | Plus | Minus | Mul | Div | Rem
  | Equal | NotEqual
  | GreaterThan | GreaterThanEqual | LessThan | LessThanEqual
  | Not | And | Or
deriving DecidableEq, Repr

/-- Modelled from the spec: the named units that occur in the unit
conversion table (the absolute-length family) plus two units, `Deg` and
`S`, that are named but have no conversion entries. `src/unit.rs` is not
among the shown sources. -/
inductive KnownUnit where
  | Px | Mm | Cm | Q | In | Pt | Pc | Deg | S
deriving DecidableEq, Repr

/-- Modelled from the spec: `Unit` has variants
`None | Known(named unit) | User(string) | Mul(list of units) |
Div(num-units, denom-units)`. `src/unit.rs` is not among the shown
sources. -/
inductive Unit where
  | None : Unit
  | Known : KnownUnit → Unit
  | User : String → Unit
  | Mul : List Unit → Unit
  | Div : List Unit → List Unit → Unit
deriving Repr

mutual

/-- Structural equality of units, i.e. the derived `PartialEq` of the
source `Unit` type. -/
def Unit.beq : Unit → Unit → Bool
  | .None, .None => true
  | .Known a, .Known b => decide (a = b)
  | .User a, .User b => decide (a = b)
  | .Mul a, .Mul b => Unit.beqList a b
  | .Div a b, .Div c d => Unit.beqList a c && Unit.beqList b d
  | _, _ => false

def Unit.beqList : List Unit → List Unit → Bool
  | [], [] => true
  | a :: as, b :: bs => Unit.beq a b && Unit.beqList as bs
  | _, _ => false

end

/-- Modelled from the spec: pixels per unit for the length units of the
conversion table; `none` for named units without conversion entries. -/
def pxPer : KnownUnit → Option ℚ
  | .Px => some 1
  | .In => some 96
  | .Pc => some 16
  | .Pt => some (4 / 3)
  | .Cm => some (4800 / 127)
  | .Mm => some (480 / 127)
  | .Q => some (120 / 127)
  | .Deg => none
  | .S => none

/-- Modelled from the spec: the entry `UNIT_CONVERSION_TABLE[u1][u2]` of the
conversion table, i.e. the factor by which a magnitude in units `u2` is
multiplied to express it in units `u1`; `none` when the table has no such
entry. Only named length units have entries. -/
def conversionFactor : Unit → Unit → Option ℚ
  | .Known a, .Known b =>
    match pxPer a, pxPer b with
    | some pa, some pb => some (pb / pa)
    | _, _ => none
  | _, _ => none

/-- Modelled from the spec: two units are comparable iff a conversion
factor exists in the conversion table or both are `None` or structurally
equal. -/
def Unit.comparable (u1 u2 : Unit) : Bool :=
  (conversionFactor u1 u2).isSome || (Unit.beq u1 .None && Unit.beq u2 .None) || Unit.beq u1 u2

/-- Modelled from the spec: the display form of a unit (the `Display`
implementation of `src/unit.rs`, not among the shown sources): named and
user units print their name, `None` prints nothing, `Mul` joins its parts
with `*` and `Div` separates numerator and denominator units with `/`. -/
def KnownUnit.toCss : KnownUnit → String
  | .Px => "px" | .Mm => "mm" | .Cm => "cm" | .Q => "q" | .In => "in"
  | .Pt => "pt" | .Pc => "pc" | .Deg => "deg" | .S => "s"

mutual

def Unit.toCss : Unit → String
  | .None => ""
  | .Known k => k.toCss
  | .User s => s
  | .Mul us => Unit.toCssList us "*"
  | .Div nums denoms => Unit.toCssList nums "*" ++ "/" ++ Unit.toCssList denoms "*"

def Unit.toCssList : List Unit → String → String
  | [], _ => ""
  | [u], _ => Unit.toCss u
  | u :: rest, sep => Unit.toCss u ++ sep ++ Unit.toCssList rest sep

end

/-- Source: `Number` (`src/value/number.rs`, not among the shown sources) is
specified as an arbitrary-precision rational with a total ordering, so it is
embedded as `ℚ`. -/
abbrev Number := ℚ

/-- The total ordering `Number::cmp` of the spec, as an `Ordering`. -/
def Number.cmpN (a b : Number) : Ordering :=
  if a < b then .lt else if b < a then .gt else .eq

/-- Modelled from the spec: the display form of a number. The decimal
formatting of the reference serializer is abstracted; integral numbers
print as integers, which is the only case the shown sources exercise. -/
def Number.toCss (q : Number) : String :=
  if q.den = 1 then toString q.num
  else toString q.num ++ "/" ++ toString q.den

/-- Modelled from the spec: a color is an rgba quadruple plus the literal
original form kept for round-trip serialization (`src/color/mod.rs` is not
among the shown sources). -/
structure Color where
  red : Number
  green : Number
  blue : Number
  alpha : Number
  rendered : String
deriving DecidableEq, Repr

/-- Modelled from the spec: a color displays as its preserved original
form. -/
def Color.toCss (c : Color) : String := c.rendered

/-- Modelled from the spec: clamp a channel to the range 0–255. -/
def clampChannel (q : Number) : Number := max 0 (min 255 q)

/-- Modelled from the spec: channel-wise combination of two colors with
clamping; the rendered form of a computed color is rebuilt from its
channels. -/
def Color.combine (f : Number → Number → Number) (a b : Color) : Color :=
  let r := clampChannel (f a.red b.red)
  let g := clampChannel (f a.green b.green)
  let bl := clampChannel (f a.blue b.blue)
  { red := r, green := g, blue := bl, alpha := a.alpha,
    rendered := "rgba(" ++ Number.toCss r ++ ", " ++ Number.toCss g ++ ", "
      ++ Number.toCss bl ++ ", " ++ Number.toCss a.alpha ++ ")" }

/-- Modelled from the spec: adding a scalar to each channel of a color,
clamped to 0–255. -/
def Color.addScalar (c : Color) (q : Number) : Color :=
  Color.combine (fun x _ => x + q) c c

/-- Source: `SassFunction` (`src/value/sass_function.rs`, not among the
shown sources) is used here only through `func.name()` in the `Display`
implementation, so only the name is modelled. -/
structure SassFunction where
  name : String
deriving DecidableEq, Repr

/-- Source: `ListSeparator`, declared in `src/common.rs` (not among the
shown sources); both variants appear in the spec. -/
inductive ListSeparator where
  | Space | Comma
deriving DecidableEq, Repr

/-- Modelled from the spec: the separator strings used when joining list
elements (`ListSeparator::as_str` lives in `src/common.rs`, not among the
shown sources); a comma separator renders as a comma and a space. -/
def ListSeparator.as_str : ListSeparator → String
  | .Space => " "
  | .Comma => ", "

/-- Source: `Brackets`, declared in `src/common.rs` (not among the shown
sources); both variants appear in `src/value/mod.rs`. -/
inductive Brackets where
  | None | Bracketed
deriving DecidableEq, Repr

/-- Source: the `Value` enum of `src/value/mod.rs`. `Map(SassMap)` wraps
`SassMap(Vec<(Value, Value)>)` (`src/value/map.rs`), inlined here as the
list of pairs. -/
inductive Value where
  | Important : Value
  | True : Value
  | False : Value
  | Null : Value
  | Dimension : Number → Unit → Value
  | List : List Value → ListSeparator → Brackets → Value
  | Color : Color → Value
  | UnaryOp : Op → Value → Value
  | BinaryOp : Value → Op → Value → Value
  | Paren : Value → Value
  | Ident : String → QuoteKind → Value
  | Map : List (Value × Value) → Value
  | ArgList : List Value → Value
  | Function : SassFunction → Value
deriving Repr

mutual

/-- Structural equality of values, i.e. the derived `PartialEq` of the
source `Value` type (numbers compare as rationals, exactly as the
arbitrary-precision `Number` compares). -/
def Value.beq : Value → Value → Bool
  | .Important, .Important => true
  | .True, .True => true
  | .False, .False => true
  | .Null, .Null => true
  | .Dimension m u, .Dimension m2 u2 => decide (m = m2) && Unit.beq u u2
  | .List a s b, .List a2 s2 b2 => valuesBeq a a2 && decide (s = s2) && decide (b = b2)
  | .Color c, .Color c2 => decide (c = c2)
  | .UnaryOp o v, .UnaryOp o2 v2 => decide (o = o2) && Value.beq v v2
  | .BinaryOp l o r, .BinaryOp l2 o2 r2 => Value.beq l l2 && decide (o = o2) && Value.beq r r2
  | .Paren v, .Paren v2 => Value.beq v v2
  | .Ident s q, .Ident s2 q2 => decide (s = s2) && decide (q = q2)
  | .Map m, .Map m2 => pairsBeq m m2
  | .ArgList a, .ArgList a2 => valuesBeq a a2
  | .Function f, .Function f2 => decide (f = f2)
  | _, _ => false

def valuesBeq : List Value → List Value → Bool
  | [], [] => true
  | a :: as, b :: bs => Value.beq a b && valuesBeq as bs
  | _, _ => false

def pairsBeq : List (Value × Value) → List (Value × Value) → Bool
  | [], [] => true
  | (k, v) :: as, (k2, v2) :: bs => Value.beq k k2 && Value.beq v v2 && pairsBeq as bs
  | _, _ => false

end

/-- True for the unevaluated expression nodes `UnaryOp`, `BinaryOp` and
`Paren`; every other variant is already a result. -/
def Value.isCalcNode : Value → Bool
  | .UnaryOp _ _ | .BinaryOp _ _ _ | .Paren _ => true
  | _ => false

/-- True exactly for `Paren` nodes (used to state how `Value::cmp`
pre-evaluates a parenthesized right operand). -/
def Value.isParen : Value → Bool
  | .Paren _ => true
  | _ => false

/-- True exactly for `Ident` values (used to state which `equals` arm
applies). -/
def Value.isIdent : Value → Bool
  | .Ident _ _ => true
  | _ => false

/-- True exactly for `Dimension` values. -/
def Value.isDimension : Value → Bool
  | .Dimension _ _ => true
  | _ => false

/-- Source: `Value::is_null`: `Null`, and an unquoted `Ident` whose text is
empty, are null. -/
def Value.is_null : Value → Bool
  | .Null => true
  | .Ident i .None => i.isEmpty
  | _ => false

/-- Source: `Value::bool`. -/
def Value.bool (b : Bool) : Value :=
  if b then Value.True else Value.False

/-- Modelled from the spec: the display form of an operator (the `Display`
implementation of `Op` in `src/common.rs`, not among the shown sources). -/
def Op.toCss : Op → String
  | .Plus => "+" | .Minus => "-" | .Mul => "*" | .Div => "/" | .Rem => "%"
  | .Equal => "==" | .NotEqual => "!="
  | .GreaterThan => ">" | .GreaterThanEqual => ">="
  | .LessThan => "<" | .LessThanEqual => "<="
  | .Not => "not" | .And => "and" | .Or => "or"

/-- Modelled from the spec: operator precedence, low to high: `or`, `and`,
`not`, equality, comparison, additive, multiplicative
(`Op::precedence` lives in `src/common.rs`, not among the shown
sources). -/
def Op.precedence : Op → Nat
  | .Or => 0
  | .And => 1
  | .Not => 2
  | .Equal | .NotEqual => 3
  | .GreaterThan | .GreaterThanEqual | .LessThan | .LessThanEqual => 4
  | .Plus | .Minus => 5
  | .Mul | .Div | .Rem => 6

/-- The four comparison operators handled by `Value::cmp`. -/
def Op.isComparison : Op → Bool
  | .GreaterThan | .GreaterThanEqual | .LessThan | .LessThanEqual => true
  | _ => false

/-- Source: the final `match op` of `Value::cmp`, turning the ordering of
the two magnitudes into `True`/`False`; any other operator there is
`unreachable!` (modelled as `none`). -/
def ordVal (op : Op) (o : Ordering) : Option (Except String Value) :=
  match op with
  | .GreaterThan =>
    some (.ok (match o with | .gt => Value.True | _ => Value.False))
  | .GreaterThanEqual =>
    some (.ok (match o with | .gt | .eq => Value.True | _ => Value.False))
  | .LessThan =>
    some (.ok (match o with | .lt => Value.True | _ => Value.False))
  | .LessThanEqual =>
    some (.ok (match o with | .lt | .eq => Value.True | _ => Value.False))
  | _ => none

/-- The result type of the fueled interpreter: `none` is divergence, a
panic or fuel exhaustion; `some (Except.error e)` a `SassResult` error;
`some (Except.ok a)` success. -/
abbrev Res (α : Type) := Option (Except String α)

def rok {α : Type} (a : α) : Res α := some (.ok a)

def rerr {α : Type} (e : String) : Res α := some (.error e)

/-- The `?` operator of the source on a `Res`: propagate `none` and
errors, continue on success. -/
def obind {α β : Type} : Res α → (α → Res β) → Res β
  | none, _ => none
  | some (.error e), _ => some (.error e)
  | some (.ok a), f => f a


/-- Join rendered items with a separator (the `join` of the source's
`Display` implementation). -/
def joinSep : List String → String → String
  | [], _ => ""
  | [s], _ => s
  | s :: rest, sep => s ++ sep ++ joinSep rest sep

/-- Source: the escaping loop of the `Display` implementation for quoted
idents that contain both quote characters: occurrences of the declared
quote character are escaped with a backslash. -/
def escapeQuoted (qc : Char) (val : String) : String :=
  qc.toString
    ++ String.join (val.toList.map fun c => if c = qc then "\\" ++ qc.toString else c.toString)
    ++ qc.toString

/-- The single-quote character (written by code point to keep the source
readable). -/
def squoteChar : Char := Char.ofNat 39

/-- The double-quote character. -/
def dquoteChar : Char := Char.ofNat 34

/-- Modelled from the spec: multiplication concatenates unit lists
(`None` is the neutral unit). -/
def Unit.mulUnits : Unit → Unit → Unit
  | .None, u => u
  | u, .None => u
  | .Mul l1, .Mul l2 => .Mul (l1 ++ l2)
  | .Mul l1, u => .Mul (l1 ++ [u])
  | u, .Mul l2 => .Mul (u :: l2)
  | u1, u2 => .Mul [u1, u2]

/-- Modelled from the spec: the remainder of two rationals (the `mod` of
the arbitrary-precision `Number`). -/
def qmod (a b : Number) : Number := a - b * (⌊a / b⌋ : ℚ)

mutual

/-- Source: `Value::eval`. Binary nodes dispatch on the operator: the
arithmetic operators call the value arithmetic, `==`/`!=` call
`Value::equals`, the comparisons call `Value::cmp`, `and`/`or` pick a side
by the truthiness of the left operand and evaluate it; `Op::Not` as a
binary operator is `unreachable!`. `Paren` evaluates its body; unary nodes
dispatch to `unary_op_plus`, negation, or boolean inversion. Every other
variant evaluates to itself. -/
def evalF : Nat → Value → Res Value
  | 0, _ => none
  | n + 1, v =>
    match v with
    | .BinaryOp lhs op rhs =>
      match op with
      | .Plus => addF n lhs rhs
      | .Minus => subF n lhs rhs
      | .Equal => obind (equalsF n lhs rhs) fun b => rok (Value.bool b)
      | .NotEqual => obind (equalsF n lhs rhs) fun b => rok (Value.bool (!b))
      | .Mul => mulF n lhs rhs
      | .Div => divF n lhs rhs
      | .Rem => remF n lhs rhs
      | .GreaterThan | .GreaterThanEqual | .LessThan | .LessThanEqual => cmpF n lhs rhs op
      | .Not => none
      | .And => obind (is_trueF n lhs) fun b => if b then evalF n rhs else evalF n lhs
      | .Or => obind (is_trueF n lhs) fun b => if b then evalF n lhs else evalF n rhs
    | .Paren v1 => evalF n v1
    | .UnaryOp op val =>
      match op with
      | .Plus => unary_op_plusF n val
      | .Minus => negF n val
      | .Not => obind (evalF n val) fun v1 => obind (is_trueF n v1) fun b => rok (Value.bool (!b))
      | _ => none
    | _ => rok v

/-- Source: `Value::is_true`: `Null` and `False` are false, the expression
nodes evaluate themselves first, everything else is true. -/
def is_trueF : Nat → Value → Res Bool
  | 0, _ => none
  | n + 1, v =>
    match v with
    | .Null | .False => rok false
    | .BinaryOp l o r => obind (evalF n (.BinaryOp l o r)) fun v1 => is_trueF n v1
    | .Paren v0 => obind (evalF n (.Paren v0)) fun v1 => is_trueF n v1
    | .UnaryOp o v0 => obind (evalF n (.UnaryOp o v0)) fun v1 => is_trueF n v1
    | _ => rok true

/-- Source: `Value::equals`. The receiver is evaluated; if the result is an
`Ident` or a `Dimension` the right operand is matched *unevaluated* against
the same variant (idents compare by text only, dimensions by unit
comparability and table conversion, with the extra rule that a sole `None`
unit compares unequal); otherwise the right operand is evaluated and the
two results are compared structurally. The table lookup for the conversion
is a panic when no entry exists (modelled `none`), but it is guarded by
`comparable`. -/
def equalsF : Nat → Value → Value → Res Bool
  | 0, _, _ => none
  | n + 1, self, other =>
    obind (evalF n self) fun sv =>
    match sv with
    | .Ident s1 _ =>
      rok (match other with
           | .Ident s2 _ => decide (s1 = s2)
           | _ => false)
    | .Dimension m unit =>
      match other with
      | .Dimension m2 unit2 =>
        if !(Unit.comparable unit unit2) then rok false
        else if Unit.beq unit unit2 then rok (decide (m = m2))
        else if Unit.beq unit .None || Unit.beq unit2 .None then rok false
        else
          match conversionFactor unit unit2 with
          | some f => rok (decide (m = m2 * f))
          | none => none
      | _ => rok false
    | s => obind (evalF n other) fun ov => rok (Value.beq s ov)

/-- Source: `Value::cmp`. A parenthesized right operand is evaluated first.
A `Dimension` receiver compares against a literal `Dimension` with unit
reconciliation (incomparable units produce the `Incompatible units` error;
a `BinaryOp` right operand is `todo!`, any other right operand the
`Undefined operation` error, whose message formats the matched operand
twice, exactly as the source does). A `BinaryOp` receiver with an operator
of at least the comparison's precedence evaluates itself and retries;
otherwise the comparison is pushed into its right subtree, evaluated, and
substituted as the new right child before evaluating. `UnaryOp`/`Paren`
receivers evaluate themselves and retry; every other receiver is the
`Undefined operation` error. -/
def cmpF : Nat → Value → Value → Op → Res Value
  | 0, _, _, _ => none
  | n + 1, self, other0, op =>
    obind (if other0.isParen then evalF n other0 else rok other0) fun other =>
    match self with
    | .Dimension num unit =>
      match other with
      | .Dimension num2 unit2 =>
        if !(Unit.comparable unit unit2) then
          rerr ("Incompatible units " ++ Unit.toCss unit2 ++ " and " ++ Unit.toCss unit ++ ".")
        else if Unit.beq unit unit2 then ordVal op (Number.cmpN num num2)
        else if Unit.beq unit .None then ordVal op (Number.cmpN num num2)
        else if Unit.beq unit2 .None then ordVal op (Number.cmpN num num2)
        else
          match conversionFactor unit unit2 with
          | some f => ordVal op (Number.cmpN num (num2 * f))
          | none => none
      | .BinaryOp _ _ _ => none
      | v =>
        match displayF n v, displayF n other with
        | some (.ok a), some (.ok b) =>
          rerr ("Undefined operation \"" ++ a ++ " " ++ op.toCss ++ " " ++ b ++ "\".")
        | _, _ => none
    | .BinaryOp left op2 right =>
      if Op.precedence op2 ≥ Op.precedence op then
        obind (evalF n (.BinaryOp left op2 right)) fun v => cmpF n v other op
      else
        obind (evalF n (.BinaryOp right op other)) fun newRhs =>
          evalF n (.BinaryOp left op2 newRhs)
    | .UnaryOp o v1 => obind (evalF n (.UnaryOp o v1)) fun v => cmpF n v other op
    | .Paren v1 => obind (evalF n (.Paren v1)) fun v => cmpF n v other op
    | v =>
      match displayF n v, displayF n other with
      | some (.ok a), some (.ok b) =>
        rerr ("Undefined operation \"" ++ a ++ " " ++ op.toCss ++ " " ++ b ++ "\".")
      | _, _ => none

/-- Source: `Value::unary_op_plus`: evaluate; a `Dimension` is returned
unchanged, anything else becomes the unquoted ident `+<display>`. -/
def unary_op_plusF : Nat → Value → Res Value
  | 0, _ => none
  | n + 1, self =>
    obind (evalF n self) fun v =>
    match v with
    | .Dimension m u => rok (.Dimension m u)
    | v1 =>
      match displayF n v1 with
      | some (.ok s) => rok (.Ident ("+" ++ s) .None)
      | _ => none

/-- Modelled from the spec: unary minus (the `Neg` implementation of
`src/value/ops.rs`, not among the shown sources): numeric negate, else the
unquoted ident `-<display>`. -/
def negF : Nat → Value → Res Value
  | 0, _ => none
  | n + 1, self =>
    obind (evalF n self) fun v =>
    match v with
    | .Dimension m u => rok (.Dimension (-m) u)
    | v1 =>
      match displayF n v1 with
      | some (.ok s) => rok (.Ident ("-" ++ s) .None)
      | _ => none

/-- Modelled from the spec: addition (`src/value/ops.rs` is not among the
shown sources). Expression-node operands are evaluated first. Numeric plus
numeric resolves units (equal units keep, a sole `None` adopts the other,
comparable units convert the right magnitude to the left unit, incomparable
units error); `null + x` yields `x` displayed; string concatenation
preserves the quote style of the string side (of the left for
string+string); color and scalar/color combine channel-wise clamped; any
other pair falls back to concatenating displayed forms. -/
def addF : Nat → Value → Value → Res Value
  | 0, _, _ => none
  | n + 1, l, r =>
    obind (if l.isCalcNode then evalF n l else rok l) fun lv =>
    obind (if r.isCalcNode then evalF n r else rok r) fun rv =>
    match lv, rv with
    | .Dimension m u, .Dimension m2 u2 =>
      if Unit.beq u u2 then rok (.Dimension (m + m2) u)
      else if Unit.beq u .None then rok (.Dimension (m + m2) u2)
      else if Unit.beq u2 .None then rok (.Dimension (m + m2) u)
      else
        match conversionFactor u u2 with
        | some f => rok (.Dimension (m + m2 * f) u)
        | none =>
          rerr ("Incompatible units " ++ Unit.toCss u2 ++ " and " ++ Unit.toCss u ++ ".")
    | .Null, rv1 =>
      match displayF n rv1 with
      | some (.ok s) => rok (.Ident s .None)
      | _ => none
    | .Ident s1 q1, .Ident s2 _ => rok (.Ident (s1 ++ s2) q1)
    | .Ident s1 q1, rv1 =>
      match displayF n rv1 with
      | some (.ok s) => rok (.Ident (s1 ++ s) q1)
      | _ => none
    | lv1, .Ident s2 q2 =>
      match displayF n lv1 with
      | some (.ok s) => rok (.Ident (s ++ s2) q2)
      | _ => none
    | .Color c, .Dimension m .None => rok (.Color (c.addScalar m))
    | .Dimension m .None, .Color c => rok (.Color (c.addScalar m))
    | .Color c, .Color c2 => rok (.Color (Color.combine (fun a b => a + b) c c2))
    | lv1, rv1 =>
      match displayF n lv1, displayF n rv1 with
      | some (.ok a), some (.ok b) => rok (.Ident (a ++ b) .None)
      | _, _ => none

/-- Modelled from the spec: subtraction, symmetric to addition;
color−color is channel-wise; any non-numeric fallback is the unquoted
ident `lhs-rhs`. -/
def subF : Nat → Value → Value → Res Value
  | 0, _, _ => none
  | n + 1, l, r =>
    obind (if l.isCalcNode then evalF n l else rok l) fun lv =>
    obind (if r.isCalcNode then evalF n r else rok r) fun rv =>
    match lv, rv with
    | .Dimension m u, .Dimension m2 u2 =>
      if Unit.beq u u2 then rok (.Dimension (m - m2) u)
      else if Unit.beq u .None then rok (.Dimension (m - m2) u2)
      else if Unit.beq u2 .None then rok (.Dimension (m - m2) u)
      else
        match conversionFactor u u2 with
        | some f => rok (.Dimension (m - m2 * f) u)
        | none =>
          rerr ("Incompatible units " ++ Unit.toCss u2 ++ " and " ++ Unit.toCss u ++ ".")
    | .Color c, .Color c2 => rok (.Color (Color.combine (fun a b => a - b) c c2))
    | lv1, rv1 =>
      match displayF n lv1, displayF n rv1 with
      | some (.ok a), some (.ok b) => rok (.Ident (a ++ "-" ++ b) .None)
      | _, _ => none

/-- Modelled from the spec: multiplication is numeric only; the unit
algebra concatenates unit lists. Non-numeric operands are an undefined
operation. -/
def mulF : Nat → Value → Value → Res Value
  | 0, _, _ => none
  | n + 1, l, r =>
    obind (if l.isCalcNode then evalF n l else rok l) fun lv =>
    obind (if r.isCalcNode then evalF n r else rok r) fun rv =>
    match lv, rv with
    | .Dimension m u, .Dimension m2 u2 => rok (.Dimension (m * m2) (Unit.mulUnits u u2))
    | lv1, rv1 =>
      match displayF n lv1, displayF n rv1 with
      | some (.ok a), some (.ok b) =>
        rerr ("Undefined operation \"" ++ a ++ " * " ++ b ++ "\".")
      | _, _ => none

/-- Modelled from the spec: division is numeric only; the unit algebra
cancels (equal or convertible units divide out; a unitless divisor keeps
the left unit; otherwise the quotient unit is recorded). Non-numeric
operands are an undefined operation. The slash-as-separator heuristic is
applied at parse time, before a `BinaryOp` with `Op::Div` exists, and so
is not part of this function. -/
def divF : Nat → Value → Value → Res Value
  | 0, _, _ => none
  | n + 1, l, r =>
    obind (if l.isCalcNode then evalF n l else rok l) fun lv =>
    obind (if r.isCalcNode then evalF n r else rok r) fun rv =>
    match lv, rv with
    | .Dimension m u, .Dimension m2 u2 =>
      if Unit.beq u u2 then rok (.Dimension (m / m2) .None)
      else if Unit.beq u2 .None then rok (.Dimension (m / m2) u)
      else
        match conversionFactor u u2 with
        | some f => rok (.Dimension (m / (m2 * f)) .None)
        | none => rok (.Dimension (m / m2) (Unit.Div [u] [u2]))
    | lv1, rv1 =>
      match displayF n lv1, displayF n rv1 with
      | some (.ok a), some (.ok b) =>
        rerr ("Undefined operation \"" ++ a ++ " / " ++ b ++ "\".")
      | _, _ => none

/-- Modelled from the spec: modulo is numeric with unit reconciliation. -/
def remF : Nat → Value → Value → Res Value
  | 0, _, _ => none
  | n + 1, l, r =>
    obind (if l.isCalcNode then evalF n l else rok l) fun lv =>
    obind (if r.isCalcNode then evalF n r else rok r) fun rv =>
    match lv, rv with
    | .Dimension m u, .Dimension m2 u2 =>
      if Unit.beq u u2 || Unit.beq u2 .None then rok (.Dimension (qmod m m2) u)
      else if Unit.beq u .None then rok (.Dimension (qmod m m2) u2)
      else
        match conversionFactor u u2 with
        | some f => rok (.Dimension (qmod m (m2 * f)) u)
        | none =>
          rerr ("Incompatible units " ++ Unit.toCss u2 ++ " and " ++ Unit.toCss u ++ ".")
    | lv1, rv1 =>
      match displayF n lv1, displayF n rv1 with
      | some (.ok a), some (.ok b) =>
        rerr ("Undefined operation \"" ++ a ++ " % " ++ b ++ "\".")
      | _, _ => none

/-- Source: the `Display` implementation for `Value`. A `Dimension` with a
`Mul` unit reports an error and exits without emitting anything (modelled
as the error alternative); lists and arglists drop null elements before
joining; expression nodes display their evaluation (an evaluation error
also exits, carrying its message); quoted idents choose the quote that
avoids escaping and otherwise escape the declared quote character. -/
def displayF : Nat → Value → Res String
  | 0, _ => none
  | n + 1, v =>
    match v with
    | .Important => rok "!important"
    | .Dimension num unit =>
      match unit with
      | .Mul us =>
        some (.error ("Error: " ++ Number.toCss num ++ Unit.toCss (.Mul us)
          ++ " isn't a valid CSS value."))
      | _ => rok (Number.toCss num ++ Unit.toCss unit)
    | .Map m => obind (displayPairsF n m) fun ss => rok ("(" ++ joinSep ss ", " ++ ")")
    | .Function f => rok ("get-function(\"" ++ f.name ++ "\")")
    | .List vals sep brackets =>
      obind (displayListF n (vals.filter fun x => !x.is_null)) fun ss =>
        match brackets with
        | .None => rok (joinSep ss sep.as_str)
        | .Bracketed => rok ("[" ++ joinSep ss sep.as_str ++ "]")
    | .Color c => rok c.toCss
    | .UnaryOp o v1 => obind (evalF n (.UnaryOp o v1)) fun v2 => displayF n v2
    | .BinaryOp l o r => obind (evalF n (.BinaryOp l o r)) fun v2 => displayF n v2
    | .Paren v1 => displayF n v1
    | .Ident val kind =>
      if kind = QuoteKind.None then rok val
      else
        let hasSingle := val.contains squoteChar
        let hasDouble := val.contains dquoteChar
        if hasSingle && !hasDouble then rok ("\"" ++ val ++ "\"")
        else if !hasSingle && hasDouble then
          rok (squoteChar.toString ++ val ++ squoteChar.toString)
        else if !hasSingle && !hasDouble then rok ("\"" ++ val ++ "\"")
        else
          match kind with
          | .Double => rok (escapeQuoted dquoteChar val)
          | .Single => rok (escapeQuoted squoteChar val)
          | .None => none
    | .True => rok "true"
    | .False => rok "false"
    | .Null => rok "null"
    | .ArgList args =>
      obind (displayListF n (args.filter fun x => !x.is_null)) fun ss =>
        rok (joinSep ss ", ")

/-- Display every element of a (pre-filtered) list. -/
def displayListF : Nat → List Value → Res (List String)
  | 0, _ => none
  | _ + 1, [] => rok []
  | n + 1, v :: rest =>
    obind (displayF n v) fun s =>
    obind (displayListF n rest) fun ss => rok (s :: ss)

/-- Display every `key: value` pair of a map. -/
def displayPairsF : Nat → List (Value × Value) → Res (List String)
  | 0, _ => none
  | _ + 1, [] => rok []
  | n + 1, (k, v) :: rest =>
    obind (displayF n k) fun sk =>
    obind (displayF n v) fun sv =>
    obind (displayPairsF n rest) fun ss => rok ((sk ++ ": " ++ sv) :: ss)

end

/-- Source: `NeverEmptyVec<T>` of `src/parse/common.rs`: a distinguished
first element plus the vector of the rest, so the collection can never be
empty. -/
structure NeverEmptyVec (T : Type) where
  first : T
  rest : List T

/-- Source: `NeverEmptyVec::new`. -/
def NeverEmptyVec.new {T : Type} (first : T) : NeverEmptyVec T :=
  { first := first, rest := [] }

/-- Source: `NeverEmptyVec::last`: the last element of `rest`, falling back
to `first` when `rest` is empty; total, so it can never fail. -/
def NeverEmptyVec.last {T : Type} (v : NeverEmptyVec T) : T :=
  v.rest.getLast?.getD v.first

/-- Source: `NeverEmptyVec::push` appends to `rest` only. -/
def NeverEmptyVec.push {T : Type} (v : NeverEmptyVec T) (x : T) : NeverEmptyVec T :=
  { first := v.first, rest := v.rest ++ [x] }

/-- Source: `NeverEmptyVec::pop` pops from `rest` only (`Vec::pop` removes
and returns the final element, or `None` when the vector is empty); the
updated collection is returned alongside, in place of the `&mut self`
mutation. -/
def NeverEmptyVec.pop {T : Type} (v : NeverEmptyVec T) : Option T × NeverEmptyVec T :=
  match v.rest.getLast? with
  | some x => (some x, { first := v.first, rest := v.rest.dropLast })
  | none => (none, v)

/-- Source: `NeverEmptyVec::len` is the length of `rest`. -/
def NeverEmptyVec.len {T : Type} (v : NeverEmptyVec T) : Nat :=
  v.rest.length

/-- Source: `NeverEmptyVec::is_empty` asks whether `rest` is empty. -/
def NeverEmptyVec.is_empty {T : Type} (v : NeverEmptyVec T) : Bool :=
  v.rest.isEmpty

/-- Source: a lexer token; argument binding and the mixin structure carry
tokens around without inspecting them, so only the kind tag is kept. -/
structure Token where
  kind : String

/-- Modelled from the spec: a declared mixin parameter records
`(name, default?)` (`FuncArg` of `src/args.rs`, not among the shown
sources). The rest-parameter flag of the spec is omitted because
`Mixin::args` in the shown source never consults it. -/
structure FuncArg where
  name : String
  default : Option Value

/-- Source: `FuncArgs` of `src/args.rs` is a tuple struct around the vector
of declared parameters (`self.args.0`); the field is named `val` here. -/
structure FuncArgs where
  val : List FuncArg

/-- Modelled from the spec: the call-site arguments (`CallArgs` of
`src/args.rs`, not among the shown sources): a finite map from argument
keys to values, with positional arguments keyed by the decimal string of
their index and keyword arguments keyed by the parameter name. -/
structure CallArgs where
  pairs : List (String × Value)

/-- Remove the binding of `key` from an association list, returning the
removed value (the `HashMap::remove` of the source); a missing key leaves
the list unchanged. -/
def removeAssoc : List (String × Value) → String → Option Value × List (String × Value)
  | [], _ => (none, [])
  | (k, v) :: rest, key =>
    if k = key then (some v, rest)
    else
      match removeAssoc rest key with
      | (res, rest2) => (res, (k, v) :: rest2)

/-- Source: `CallArgs::remove`, with the mutated map returned alongside. -/
def CallArgs.remove (a : CallArgs) (key : String) : Option Value × CallArgs :=
  match removeAssoc a.pairs key with
  | (res, rest) => (res, { pairs := rest })

/-- Modelled from the spec: a scope maps identifiers to values; the mixin
and function sub-maps play no part in argument binding and are omitted.
`src/scope.rs` is not among the shown sources. -/
structure Scope where
  vars : List (String × Value)

/-- Modelled from the spec: `Scope::insert_var` inserts into the innermost
scope (the newest binding shadows). -/
def Scope.insert_var (s : Scope) (name : String) (v : Value) : Scope :=
  { vars := (name, v) :: s.vars }

/-- Modelled from the spec: `Scope::get_var` looks the newest binding up. -/
def Scope.get_var (s : Scope) (name : String) : Option Value :=
  (s.vars.find? fun p => p.1 == name).map fun p => p.2

/-- Source: `Mixin` of `src/atrule/mixin.rs`: the captured defining scope,
the declared parameters and the body token stream. -/
structure Mixin where
  scope : Scope
  args : FuncArgs
  body : List Token

/-- Source: `Mixin::new`. -/
def Mixin.new (scope : Scope) (args : FuncArgs) (body : List Token) : Mixin :=
  { scope := scope, args := args, body := body }

/-- Source: the binding loop of `Mixin::args`, over the declared parameters
paired with their positions (`self.args.0.iter().enumerate()`): take the
positional slot keyed by the decimal index, else the keyword slot keyed by
the parameter name, else the declared default, else fail with
`Missing argument $name.`; each bound value is inserted into the captured
scope under the parameter name. The call-argument map is threaded
explicitly in place of the source's `&mut CallArgs`. -/
def bindLoop : List (Nat × FuncArg) → Scope → CallArgs → Except String (Scope × CallArgs)
  | [], scope, ca => .ok (scope, ca)
  | (idx, arg) :: rest, scope, ca =>
    match ca.remove (toString idx) with
    | (some v, ca1) => bindLoop rest (scope.insert_var arg.name v) ca1
    | (none, ca1) =>
      match ca1.remove arg.name with
      | (some v, ca2) => bindLoop rest (scope.insert_var arg.name v) ca2
      | (none, ca2) =>
        match arg.default with
        | some v => bindLoop rest (scope.insert_var arg.name v) ca2
        | none => .error ("Missing argument $" ++ arg.name ++ ".")

/-- Source: `Mixin::args` (named `bindArgs` because the field `args`
already carries the source name): bind every declared parameter in
declaration order into the captured scope and return the updated mixin,
with the consumed call-argument map alongside. -/
def Mixin.bindArgs (m : Mixin) (ca : CallArgs) : Except String (Mixin × CallArgs) :=
  match bindLoop m.args.val.enum m.scope ca with
  | .ok (scope, ca1) => .ok (Mixin.new scope m.args m.body, ca1)
  | .error e => .error e

/-- The binding rule exactly as the spec sentence states it, written as
plain recursion over the declared parameters with an explicit position
counter: consume from the call's positional slots (matched by numeric
index), then keyword slots (matched by name); on miss use the declared
default, or error with `Missing argument $name.`; bind the value into the
scope under the parameter name. -/
def bindParamsSpec (idx : Nat) (params : List FuncArg) (scope : Scope) (ca : CallArgs) :
    Except String (Scope × CallArgs) :=
  match params with
  | [] => .ok (scope, ca)
  | p :: rest =>
    match ca.remove (toString idx) with
    | (some v, ca1) => bindParamsSpec (idx + 1) rest (scope.insert_var p.name v) ca1
    | (none, ca1) =>
      match ca1.remove p.name with
      | (some v, ca2) => bindParamsSpec (idx + 1) rest (scope.insert_var p.name v) ca2
      | (none, ca2) =>
        match p.default with
        | some v => bindParamsSpec (idx + 1) rest (scope.insert_var p.name v) ca2
        | none => .error ("Missing argument $" ++ p.name ++ ".")

/-- Source: `Builtin` of `src/builtin/mod.rs`: a tuple struct of the
function pointer and the id drawn from the global `FUNCTION_COUNT`
counter at construction time. -/
structure Builtin where
  body : CallArgs → Scope → Except String Value
  id : Nat

/-- Source: `Builtin::new` reads and post-increments the global
`FUNCTION_COUNT` counter (`fetch_add(1, Relaxed)`), which is the id of the
new builtin; the counter state is passed and returned explicitly. -/
def Builtin.new (body : CallArgs → Scope → Except String Value) (count : Nat) :
    Builtin × Nat :=
  ({ body := body, id := count }, count + 1)

/-- Source: the derived `Clone` implementation copies both fields. -/
def Builtin.clone (b : Builtin) : Builtin :=
  { body := b.body, id := b.id }

/-- Source: the manual `PartialEq` implementation for `Builtin` compares
only the counter ids, never the function pointers. -/
def Builtin.beq (a b : Builtin) : Bool :=
  a.id == b.id

/-- The spec's description of dimension equality, written from its words:
two dimensions are equal iff their units are comparable and the converted
magnitudes are equal (the right magnitude is converted through the table
when the units differ). -/
def dimensionEqSpec (m : Number) (u : Unit) (m2 : Number) (u2 : Unit) : Bool :=
  Unit.comparable u u2 &&
    (match conversionFactor u u2 with
     | some f => decide (m = m2 * f)
     | none => decide (m = m2))

/-! ## Basic lemmas about the result monad, units and the interpreter -/

@[simp] theorem obind_none {α β : Type} (f : α → Res β) : obind none f = none := rfl

@[simp] theorem obind_error {α β : Type} (e : String) (f : α → Res β) :
    obind (some (.error e)) f = some (.error e) := rfl

@[simp] theorem obind_ok {α β : Type} (a : α) (f : α → Res β) :
    obind (some (.ok a)) f = f a := rfl

@[simp] theorem obind_rok {α β : Type} (a : α) (f : α → Res β) :
    obind (rok a) f = f a := rfl

@[simp] theorem obind_rerr {α β : Type} (e : String) (f : α → Res β) :
    obind (rerr e) f = rerr e := rfl

theorem obind_eq_ok {α β : Type} {x : Res α} {f : α → Res β} {b : β}
    (h : obind x f = some (.ok b)) : ∃ a, x = some (.ok a) ∧ f a = some (.ok b) := by
  match x with
  | none => simp [obind] at h
  | some (.error e) => simp [obind] at h
  | some (.ok a) => exact ⟨a, rfl, h⟩

theorem rok_ne_none {α : Type} (a : α) : rok a ≠ none := by simp [rok]

@[simp] theorem rok_inj {α : Type} {a b : α} : (rok a = rok b) ↔ a = b := by simp [rok]

theorem unit_beq_none_iff (u : Unit) : Unit.beq u .None = true ↔ u = .None := by
  cases u <;> simp [Unit.beq]

theorem conversionFactor_none_left (u : Unit) : conversionFactor .None u = none := rfl

theorem conversionFactor_none_right (u : Unit) : conversionFactor u .None = none := by
  cases u <;> rfl

/-- When two units are structurally equal, the conversion table either has
no entry for the pair or holds the factor 1. -/
theorem conversionFactor_beq_self {u v : Unit} (h : Unit.beq u v = true) :
    conversionFactor u v = some 1 ∨ conversionFactor u v = none := by
  cases u <;> cases v <;> simp_all [Unit.beq, conversionFactor]
  rename_i a b
  subst h
  cases a <;> simp [pxPer]

/-- Comparable units that are not structurally equal have a conversion
table entry. -/
theorem comparable_factor_isSome {u v : Unit} (hc : Unit.comparable u v = true)
    (hne : Unit.beq u v = false) : (conversionFactor u v).isSome = true := by
  simp only [Unit.comparable, Bool.or_eq_true, Bool.and_eq_true] at hc
  rcases hc with (hc | ⟨h1, h2⟩) | hc
  · exact hc
  · rw [unit_beq_none_iff] at h1 h2
    subst h1; subst h2
    simp [Unit.beq] at hne
  · rw [hne] at hc; exact absurd hc (by simp)

/-- A `None` unit on either side of a distinct pair is incomparable. -/
theorem comparable_none_cases {u v : Unit} (hc : Unit.comparable u v = true)
    (hne : Unit.beq u v = false) :
    Unit.beq u .None = false ∧ Unit.beq v .None = false := by
  have hs := comparable_factor_isSome hc hne
  constructor
  · cases hu : Unit.beq u .None
    · rfl
    · rw [unit_beq_none_iff] at hu
      subst hu
      simp [conversionFactor] at hs
  · cases hv : Unit.beq v .None
    · rfl
    · rw [unit_beq_none_iff] at hv
      subst hv
      rw [conversionFactor_none_right] at hs
      simp at hs

/-- Evaluation of a value that is not an expression node is the identity. -/
theorem evalF_nonCalc (n : Nat) (v : Value) (h : v.isCalcNode = false) :
    evalF (n + 1) v = rok v := by
  cases v <;> simp_all [evalF, Value.isCalcNode]

theorem ordVal_ok_not_calc {op : Op} {o : Ordering} {r : Value}
    (h : ordVal op o = some (.ok r)) : r.isCalcNode = false := by
  cases op <;> cases o <;>
    simp only [ordVal, Option.some.injEq, Except.ok.injEq, reduceCtorEq] at h <;>
    (try subst h) <;> rfl

/-! ## Successful interpreter results are never expression nodes -/

theorem unary_op_plusF_ok_not_calc {n : Nat} {v x : Value}
    (h : unary_op_plusF n v = some (.ok x)) : x.isCalcNode = false := by
  match n with
  | 0 => simp [unary_op_plusF] at h
  | n + 1 =>
    simp only [unary_op_plusF] at h
    rcases obind_eq_ok h with ⟨v1, hv, h2⟩
    clear h hv
    split at h2 <;> (try split at h2) <;>
      first
      | exact Option.noConfusion h2
      | (injection h2 with i1; injection i1 with i2; subst i2; rfl)
      | (subst x; rfl)
      | simp_all [rok, rerr]

theorem negF_ok_not_calc {n : Nat} {v x : Value}
    (h : negF n v = some (.ok x)) : x.isCalcNode = false := by
  match n with
  | 0 => simp [negF] at h
  | n + 1 =>
    simp only [negF] at h
    rcases obind_eq_ok h with ⟨v1, hv, h2⟩
    clear h hv
    split at h2 <;> (try split at h2) <;>
      first
      | exact Option.noConfusion h2
      | (injection h2 with i1; injection i1 with i2; subst i2; rfl)
      | (subst x; rfl)
      | simp_all [rok, rerr]

theorem addF_ok_not_calc {n : Nat} {l r x : Value}
    (h : addF n l r = some (.ok x)) : x.isCalcNode = false := by
  match n with
  | 0 => simp [addF] at h
  | n + 1 =>
    simp only [addF] at h
    rcases obind_eq_ok h with ⟨lv, hl, h2⟩
    clear h hl
    rcases obind_eq_ok h2 with ⟨rv, hr, h3⟩
    clear h2 hr
    split at h3 <;> (try split at h3) <;> (try split at h3) <;> (try split at h3) <;>
      (try split at h3) <;>
      first
      | exact Option.noConfusion h3
      | (injection h3 with i1; injection i1 with i2; subst i2; rfl)
      | (subst x; rfl)
      | simp_all [rok, rerr]

theorem subF_ok_not_calc {n : Nat} {l r x : Value}
    (h : subF n l r = some (.ok x)) : x.isCalcNode = false := by
  match n with
  | 0 => simp [subF] at h
  | n + 1 =>
    simp only [subF] at h
    rcases obind_eq_ok h with ⟨lv, hl, h2⟩
    clear h hl
    rcases obind_eq_ok h2 with ⟨rv, hr, h3⟩
    clear h2 hr
    split at h3 <;> (try split at h3) <;> (try split at h3) <;> (try split at h3) <;>
      (try split at h3) <;>
      first
      | exact Option.noConfusion h3
      | (injection h3 with i1; injection i1 with i2; subst i2; rfl)
      | (subst x; rfl)
      | simp_all [rok, rerr]

theorem mulF_ok_not_calc {n : Nat} {l r x : Value}
    (h : mulF n l r = some (.ok x)) : x.isCalcNode = false := by
  match n with
  | 0 => simp [mulF] at h
  | n + 1 =>
    simp only [mulF] at h
    rcases obind_eq_ok h with ⟨lv, hl, h2⟩
    clear h hl
    rcases obind_eq_ok h2 with ⟨rv, hr, h3⟩
    clear h2 hr
    split at h3 <;> (try split at h3) <;>
      first
      | exact Option.noConfusion h3
      | (injection h3 with i1; injection i1 with i2; subst i2; rfl)
      | (subst x; rfl)
      | simp_all [rok, rerr]

theorem divF_ok_not_calc {n : Nat} {l r x : Value}
    (h : divF n l r = some (.ok x)) : x.isCalcNode = false := by
  match n with
  | 0 => simp [divF] at h
  | n + 1 =>
    simp only [divF] at h
    rcases obind_eq_ok h with ⟨lv, hl, h2⟩
    clear h hl
    rcases obind_eq_ok h2 with ⟨rv, hr, h3⟩
    clear h2 hr
    split at h3 <;> (try split at h3) <;> (try split at h3) <;> (try split at h3) <;>
      first
      | exact Option.noConfusion h3
      | (injection h3 with i1; injection i1 with i2; subst i2; rfl)
      | (subst x; rfl)
      | simp_all [rok, rerr]

theorem remF_ok_not_calc {n : Nat} {l r x : Value}
    (h : remF n l r = some (.ok x)) : x.isCalcNode = false := by
  match n with
  | 0 => simp [remF] at h
  | n + 1 =>
    simp only [remF] at h
    rcases obind_eq_ok h with ⟨lv, hl, h2⟩
    clear h hl
    rcases obind_eq_ok h2 with ⟨rv, hr, h3⟩
    clear h2 hr
    split at h3 <;> (try split at h3) <;> (try split at h3) <;> (try split at h3) <;>
      first
      | exact Option.noConfusion h3
      | (injection h3 with i1; injection i1 with i2; subst i2; rfl)
      | (subst x; rfl)
      | simp_all [rok, rerr]

/-- Every successful result of `evalF` or of `cmpF` is a plain value, never
an expression node. -/
theorem eval_cmp_ok_not_calc :
    ∀ n : Nat,
      (∀ v r, evalF n v = some (.ok r) → r.isCalcNode = false) ∧
      (∀ s o op r, cmpF n s o op = some (.ok r) → r.isCalcNode = false) := by
  intro n
  induction n with
  | zero =>
    refine ⟨fun v r h => ?_, fun s o op r h => ?_⟩ <;> simp [evalF, cmpF] at h
  | succ n ih =>
    refine ⟨fun v r h => ?_, fun s o op r h => ?_⟩
    · cases hcv : v.isCalcNode
      case false =>
        rw [evalF_nonCalc n v hcv] at h
        injection h with i1
        injection i1 with i2
        subst i2
        exact hcv
      case true =>
        cases v
        case UnaryOp op val =>
          cases op <;> simp only [evalF] at h
          case Plus => exact unary_op_plusF_ok_not_calc h
          case Minus => exact negF_ok_not_calc h
          case Not =>
            rcases obind_eq_ok h with ⟨v1, hv, h2⟩
            rcases obind_eq_ok h2 with ⟨b, hb, h3⟩
            injection h3 with i1
            injection i1 with i2
            subst i2
            cases b <;> rfl
          all_goals exact Option.noConfusion h
        case BinaryOp lhs op rhs =>
          cases op <;> simp only [evalF] at h
          case Plus => exact addF_ok_not_calc h
          case Minus => exact subF_ok_not_calc h
          case Mul => exact mulF_ok_not_calc h
          case Div => exact divF_ok_not_calc h
          case Rem => exact remF_ok_not_calc h
          case Equal =>
            rcases obind_eq_ok h with ⟨b, hb, h2⟩
            injection h2 with i1
            injection i1 with i2
            subst i2
            cases b <;> rfl
          case NotEqual =>
            rcases obind_eq_ok h with ⟨b, hb, h2⟩
            injection h2 with i1
            injection i1 with i2
            subst i2
            cases b <;> rfl
          case GreaterThan => exact ih.2 _ _ _ _ h
          case GreaterThanEqual => exact ih.2 _ _ _ _ h
          case LessThan => exact ih.2 _ _ _ _ h
          case LessThanEqual => exact ih.2 _ _ _ _ h
          case Not => exact Option.noConfusion h
          case And =>
            rcases obind_eq_ok h with ⟨b, hb, h2⟩
            cases b
            · rw [if_neg Bool.false_ne_true] at h2
              exact ih.1 _ _ h2
            · rw [if_pos rfl] at h2
              exact ih.1 _ _ h2
          case Or =>
            rcases obind_eq_ok h with ⟨b, hb, h2⟩
            cases b
            · rw [if_neg Bool.false_ne_true] at h2
              exact ih.1 _ _ h2
            · rw [if_pos rfl] at h2
              exact ih.1 _ _ h2
        case Paren v1 =>
          simp only [evalF] at h
          exact ih.1 _ _ h
        all_goals exact Bool.noConfusion hcv
    · simp only [cmpF] at h
      rcases obind_eq_ok h with ⟨other, hother, h2⟩
      clear h hother
      cases s <;> dsimp only at h2
      case Dimension nm ut =>
        split at h2 <;> (try split at h2) <;> (try split at h2) <;> (try split at h2) <;>
          (try split at h2) <;> (try split at h2) <;>
          first
          | exact ordVal_ok_not_calc h2
          | exact Option.noConfusion h2
          | (injection h2 with i1; injection i1 with i2; subst i2; rfl)
          | (subst r; rfl)
          | simp_all [rok, rerr]
      case BinaryOp left op2 right =>
        split at h2
        · rcases obind_eq_ok h2 with ⟨v1, hv, h3⟩
          exact ih.2 _ _ _ _ h3
        · rcases obind_eq_ok h2 with ⟨nr, hn, h3⟩
          exact ih.1 _ _ h3
      case UnaryOp o1 v1 =>
        rcases obind_eq_ok h2 with ⟨v2, hv, h3⟩
        exact ih.2 _ _ _ _ h3
      case Paren v1 =>
        rcases obind_eq_ok h2 with ⟨v2, hv, h3⟩
        exact ih.2 _ _ _ _ h3
      all_goals (split at h2 <;>
        first
        | exact Option.noConfusion h2
        | (injection h2 with i1; injection i1 with i2; subst i2; rfl)
        | (subst r; rfl)
        | simp_all [rok, rerr])

/-- C6 (confirmed): `eval` is idempotent: whenever `eval v` succeeds with
result `r`, evaluating `r` again (with any positive fuel) succeeds and
returns `r` unchanged, i.e. `eval (eval v) = eval v`. -/
theorem eval_idempotent (n : Nat) (v r : Value) (h : evalF n v = some (.ok r)) :
    ∀ m : Nat, evalF (m + 1) r = some (.ok r) := by
  intro m
  have hnc := (eval_cmp_ok_not_calc n).1 v r h
  rw [evalF_nonCalc m r hnc, rok]

/-- Witness for C6 at a concrete input: `eval (Paren Null)` succeeds with
`Null`, and evaluating that result returns it unchanged. -/
theorem eval_idempotent_witness :
    evalF 2 (Value.Paren Value.Null) = some (.ok Value.Null) ∧
    evalF 1 Value.Null = some (.ok Value.Null) := by
  refine ⟨by simp [evalF, rok], ?_⟩
  exact eval_idempotent 2 (Value.Paren Value.Null) Value.Null (by simp [evalF, rok]) 0

/-! ## The claims about logical operators, comparisons and display -/

/-- C2 (confirmed): evaluating the `BinaryOp` `l and r` returns the
evaluation of `l` when `l` is falsy and otherwise the evaluation of `r`
(first falsy else last), and `l or r` returns the evaluation of `l` when
`l` is truthy and otherwise the evaluation of `r` (first truthy else
last); in particular `1 or 2` evaluates to `1`, so `color: 1 or 2` yields
`color: 1`. -/
theorem and_or_select :
    (∀ (n : Nat) (l r : Value) (b : Bool),
        is_trueF n l = some (.ok b) →
        (evalF (n + 1) (.BinaryOp l .And r) = if b then evalF n r else evalF n l) ∧
        (evalF (n + 1) (.BinaryOp l .Or r) = if b then evalF n l else evalF n r)) ∧
    evalF 3 (.BinaryOp (.Dimension 1 .None) .Or (.Dimension 2 .None)) =
      some (.ok (.Dimension 1 .None)) := by
  constructor
  · intro n l r b h
    constructor <;> simp [evalF, h]
  · simp [evalF, is_trueF, rok]

/-- Witness for C2: `false and null` selects the falsy left operand. -/
theorem and_or_select_witness :
    is_trueF 1 Value.False = some (.ok false) ∧
    evalF 2 (.BinaryOp Value.False .And Value.Null) = evalF 1 Value.False := by
  have h : is_trueF 1 Value.False = some (.ok false) := by simp [is_trueF, rok]
  refine ⟨h, ?_⟩
  have h2 := (and_or_select.1 1 Value.False Value.Null false h).1
  simpa using h2

/-- C7 (confirmed): the comparison operators are defined only for numeric
operands with unit reconciliation: two dimensions with incomparable units
produce the `Incompatible units` error; a string operand on either side
produces an `Undefined operation` error and never a lexicographic
comparison (a string receiver never yields a successful result at all). -/
theorem cmp_numeric_only :
    (∀ (n : Nat) (m : Number) (u : Unit) (m2 : Number) (u2 : Unit) (op : Op),
        Unit.comparable u u2 = false →
        cmpF (n + 1) (.Dimension m u) (.Dimension m2 u2) op =
          some (.error ("Incompatible units " ++ Unit.toCss u2 ++ " and "
            ++ Unit.toCss u ++ "."))) ∧
    (∀ (n : Nat) (s : String) (q : QuoteKind) (other : Value) (op : Op) (v : Value),
        ¬ cmpF n (.Ident s q) other op = some (.ok v)) ∧
    (∀ (n : Nat) (m : Number) (u : Unit) (s : String) (op : Op),
        cmpF (n + 2) (.Dimension m u) (.Ident s .None) op =
          some (.error ("Undefined operation \"" ++ s ++ " " ++ op.toCss ++ " "
            ++ s ++ "\"."))) ∧
    cmpF 3 (.Ident "a" .None) (.Ident "b" .None) .LessThan =
      some (.error "Undefined operation \"a < b\".") := by
  refine ⟨?_, ?_, ?_, ?_⟩
  · intro n m u m2 u2 op h
    simp [cmpF, Value.isParen, h, rerr, rok, obind]
  · intro n s q other op v hok
    match n with
    | 0 => exact Option.noConfusion hok
    | n + 1 =>
      simp only [cmpF] at hok
      rcases obind_eq_ok hok with ⟨o2, ho, h2⟩
      try dsimp only at h2
      split at h2 <;>
        first
        | exact Option.noConfusion h2
        | (injection h2 with i1; injection i1)
  · intro n m u s op
    simp [cmpF, displayF, Value.isParen, rerr, rok, obind]
  · simp [cmpF, displayF, Value.isParen, Op.toCss, rerr, rok, obind]

/-- Witness for C7: comparing `1foo` with `1px` (incomparable units) is the
`Incompatible units` error, with the hypothesis discharged by computation. -/
theorem cmp_numeric_only_witness :
    Unit.comparable (.User "foo") (.Known .Px) = false ∧
    cmpF (0 + 1) (.Dimension 1 (.User "foo")) (.Dimension 1 (.Known .Px)) .LessThan =
      some (.error ("Incompatible units " ++ Unit.toCss (.Known .Px) ++ " and "
        ++ Unit.toCss (.User "foo") ++ ".")) := by
  have hc : Unit.comparable (.User "foo") (.Known .Px) = false := by
    simp [Unit.comparable, Unit.beq, conversionFactor]
  exact ⟨hc, cmp_numeric_only.1 0 1 (.User "foo") 1 (.Known .Px) .LessThan hc⟩

/-- C8 (confirmed): displaying a `Dimension` whose unit is a `Mul`
compound unit reports the `isn't a valid CSS value` error and exits,
emitting nothing: for every fuel the display either diverges (fuel 0) or
returns that error, and it never returns CSS text. -/
theorem display_mul_unit_error :
    (∀ (n : Nat) (num : Number) (us : List Unit),
        displayF (n + 1) (.Dimension num (.Mul us)) =
          some (.error ("Error: " ++ Number.toCss num ++ Unit.toCss (.Mul us)
            ++ " isn't a valid CSS value."))) ∧
    (∀ (n : Nat) (num : Number) (us : List Unit),
        displayF n (.Dimension num (.Mul us)) = none ∨
        displayF n (.Dimension num (.Mul us)) =
          some (.error ("Error: " ++ Number.toCss num ++ Unit.toCss (.Mul us)
            ++ " isn't a valid CSS value."))) := by
  constructor
  · intro n num us
    simp [displayF]
  · intro n num us
    match n with
    | 0 => exact Or.inl rfl
    | n + 1 => exact Or.inr (by simp [displayF])

/-- C3 (confirmed): when a comparison operator is applied to a left operand
that is itself a `BinaryOp`: if the inner operator's precedence is at least
the comparison's, the inner `BinaryOp` is evaluated first and the
comparison is applied to its result; otherwise the comparison is formed
between the inner right child and the comparison's right operand,
evaluated, and substituted as the new right child before evaluating, so
the higher-precedence operator binds tighter. Concretely, `1 + 2 < 4`
evaluates the sum first and yields `true`, and `true == 1 < 2` binds the
comparison tighter and yields `true`. -/
theorem cmp_reassociates :
    (∀ (n : Nat) (l : Value) (op2 : Op) (r other : Value) (op : Op),
        op.isComparison = true → other.isParen = false →
        cmpF (n + 1) (.BinaryOp l op2 r) other op =
          if op2.precedence ≥ op.precedence then
            obind (evalF n (.BinaryOp l op2 r)) fun v => cmpF n v other op
          else
            obind (evalF n (.BinaryOp r op other)) fun newRhs =>
              evalF n (.BinaryOp l op2 newRhs)) ∧
    evalF 9 (.BinaryOp (.BinaryOp (.Dimension 1 .None) .Plus (.Dimension 2 .None))
      .LessThan (.Dimension 4 .None)) = some (.ok Value.True) ∧
    evalF 9 (.BinaryOp (.BinaryOp Value.True .Equal (.Dimension 1 .None))
      .LessThan (.Dimension 2 .None)) = some (.ok Value.True) := by
  have hgen : ∀ (n : Nat) (l : Value) (op2 : Op) (r other : Value) (op : Op),
      other.isParen = false →
      cmpF (n + 1) (.BinaryOp l op2 r) other op =
        if op2.precedence ≥ op.precedence then
          obind (evalF n (.BinaryOp l op2 r)) fun v => cmpF n v other op
        else
          obind (evalF n (.BinaryOp r op other)) fun newRhs =>
            evalF n (.BinaryOp l op2 newRhs) := by
    intro n l op2 r other op hnp
    simp [cmpF, hnp, rok, obind]
  have hdim : ∀ (n : Nat) (m m2 : Number) (op : Op),
      cmpF (n + 1) (.Dimension m .None) (.Dimension m2 .None) op =
        ordVal op (Number.cmpN m m2) := by
    intro n m m2 op
    have c1 : Unit.comparable Unit.None Unit.None = true := by
      simp [Unit.comparable, Unit.beq]
    have c2 : Unit.beq Unit.None Unit.None = true := by simp [Unit.beq]
    simp [cmpF, Value.isParen, c1, c2, rok, obind]
  refine ⟨fun n l op2 r other op _hop hnp => hgen n l op2 r other op hnp, ?_, ?_⟩
  · have e1 : evalF (6 + 1) (.BinaryOp (.Dimension 1 .None) .Plus (.Dimension 2 .None))
        = some (.ok (.Dimension 3 .None)) := by
      norm_num [evalF, addF, Value.isCalcNode, Unit.beq, rok, obind]
    have e2 : cmpF (6 + 1) (.Dimension 3 .None) (.Dimension 4 .None) .LessThan
        = some (.ok Value.True) := by
      rw [hdim 6]
      norm_num [Number.cmpN, ordVal, rok]
    have e3 : evalF 9 (.BinaryOp (.BinaryOp (.Dimension 1 .None) .Plus (.Dimension 2 .None))
          .LessThan (.Dimension 4 .None))
        = cmpF (7 + 1) (.BinaryOp (.Dimension 1 .None) .Plus (.Dimension 2 .None))
            (.Dimension 4 .None) .LessThan := by
      simp only [evalF]
    have e4 : cmpF (7 + 1) (.BinaryOp (.Dimension 1 .None) .Plus (.Dimension 2 .None))
          (.Dimension 4 .None) .LessThan
        = obind (evalF 7 (.BinaryOp (.Dimension 1 .None) .Plus (.Dimension 2 .None)))
            fun v => cmpF 7 v (.Dimension 4 .None) .LessThan := by
      rw [hgen 7 (.Dimension 1 .None) .Plus (.Dimension 2 .None) (.Dimension 4 .None)
        .LessThan rfl]
      norm_num [Op.precedence]
    rw [e3, e4]
    rw [show (7 : Nat) = 6 + 1 from rfl, e1, obind_ok, e2]
  · have f1 : cmpF (5 + 1) (.Dimension 1 .None) (.Dimension 2 .None) .LessThan
        = some (.ok Value.True) := by
      rw [hdim 5]
      norm_num [Number.cmpN, ordVal, rok]
    have f2 : evalF (6 + 1) (.BinaryOp (.Dimension 1 .None) .LessThan (.Dimension 2 .None))
        = cmpF (5 + 1) (.Dimension 1 .None) (.Dimension 2 .None) .LessThan := by
      simp only [evalF]
    have f3 : evalF (6 + 1) (.BinaryOp Value.True .Equal Value.True)
        = some (.ok Value.True) := by
      simp [evalF, equalsF, Value.beq, Value.bool, rok, obind]
    have f4 : cmpF (7 + 1) (.BinaryOp Value.True .Equal (.Dimension 1 .None))
          (.Dimension 2 .None) .LessThan
        = obind (evalF 7 (.BinaryOp (.Dimension 1 .None) .LessThan (.Dimension 2 .None)))
            fun newRhs => evalF 7 (.BinaryOp Value.True .Equal newRhs) := by
      rw [hgen 7 Value.True .Equal (.Dimension 1 .None) (.Dimension 2 .None)
        .LessThan rfl]
      norm_num [Op.precedence]
    have f5 : evalF 9 (.BinaryOp (.BinaryOp Value.True .Equal (.Dimension 1 .None))
          .LessThan (.Dimension 2 .None))
        = cmpF (7 + 1) (.BinaryOp Value.True .Equal (.Dimension 1 .None))
            (.Dimension 2 .None) .LessThan := by
      simp only [evalF]
    rw [f5, f4]
    rw [show (7 : Nat) = 6 + 1 from rfl, f2, f1, obind_ok, f3]

/-- Witness for C3: the structural equation instantiated for
`(1 + 2) < 4`, with both hypotheses discharged. -/
theorem cmp_reassociates_witness :
    Op.isComparison .LessThan = true ∧
    Value.isParen (.Dimension 4 .None) = false ∧
    cmpF (1 + 1) (.BinaryOp (.Dimension 1 .None) .Plus (.Dimension 2 .None))
        (.Dimension 4 .None) .LessThan =
      (if Op.precedence .Plus ≥ Op.precedence .LessThan then
        obind (evalF 1 (.BinaryOp (.Dimension 1 .None) .Plus (.Dimension 2 .None)))
          fun v => cmpF 1 v (.Dimension 4 .None) .LessThan
      else
        obind (evalF 1 (.BinaryOp (.Dimension 2 .None) .LessThan (.Dimension 4 .None)))
          fun newRhs => evalF 1 (.BinaryOp (.Dimension 1 .None) .Plus newRhs)) :=
  ⟨rfl, rfl,
    cmp_reassociates.1 1 (.Dimension 1 .None) .Plus (.Dimension 2 .None)
      (.Dimension 4 .None) .LessThan rfl rfl⟩

/-- C1 counterexample: `==` is not structural equality after evaluation of
both operands. With `l = Ident "a"` (unquoted) and `r = Paren (Ident "a")`
both operands evaluate to the same value, yet `l == r` evaluates to
`false`, because the `Ident` arm of `Value::equals` matches the right
operand unevaluated. -/
theorem equals_not_structural_counterexample :
    evalF 4 (.BinaryOp (.Ident "a" .None) .Equal (.Paren (.Ident "a" .None)))
      = some (.ok Value.False) ∧
    evalF 4 (.Ident "a" .None) = some (.ok (.Ident "a" .None)) ∧
    evalF 4 (.Paren (.Ident "a" .None)) = some (.ok (.Ident "a" .None)) ∧
    Value.beq (.Ident "a" .None) (.Ident "a" .None) = true := by
  refine ⟨?_, ?_, ?_, ?_⟩
  · simp [evalF, equalsF, Value.bool, rok, obind]
  · simp [evalF, rok]
  · simp [evalF, rok]
  · simp [Value.beq]

/-- C1 (amended): evaluating `l == r` evaluates the left operand only; when
the result is a `Dimension`, a literal `Dimension` right operand compares
exactly as the claim says — equal iff the units are comparable and the
converted magnitudes are equal, with unequal incomparable units giving
`false` rather than an error (first conjunct, via `dimensionEqSpec` written
from the spec's words); when the result is an `Ident`, a literal `Ident`
right operand compares by text alone, unevaluated and ignoring quote kinds
(third conjunct); only otherwise is the right operand evaluated and
compared structurally (second conjunct). -/
theorem equals_amended :
    (∀ (n : Nat) (m : Number) (u : Unit) (m2 : Number) (u2 : Unit),
        evalF (n + 3) (.BinaryOp (.Dimension m u) .Equal (.Dimension m2 u2)) =
          some (.ok (Value.bool (dimensionEqSpec m u m2 u2)))) ∧
    (∀ (n : Nat) (l r sv rv : Value),
        evalF n l = some (.ok sv) →
        sv.isIdent = false → sv.isDimension = false →
        evalF n r = some (.ok rv) →
        equalsF (n + 1) l r = some (.ok (Value.beq sv rv))) ∧
    (∀ (n : Nat) (l r : Value) (s1 : String) (q1 : QuoteKind),
        evalF n l = some (.ok (.Ident s1 q1)) →
        equalsF (n + 1) l r =
          some (.ok (match r with | .Ident s2 _ => decide (s1 = s2) | _ => false))) := by
  refine ⟨?_, ?_, ?_⟩
  · intro n m u m2 u2
    simp only [evalF, equalsF, evalF_nonCalc n (.Dimension m u) rfl, obind_rok]
    by_cases hc : Unit.comparable u u2 = true
    · by_cases hbe : Unit.beq u u2 = true
      · rcases conversionFactor_beq_self hbe with hf | hf <;>
          simp [dimensionEqSpec, hc, hbe, hf, rok, obind]
      · have hbe2 : Unit.beq u u2 = false := by
          cases hx : Unit.beq u u2
          · rfl
          · exact absurd hx hbe
        have hnn := comparable_none_cases hc hbe2
        have hs := comparable_factor_isSome hc hbe2
        rcases hf : conversionFactor u u2 with _ | f
        · rw [hf] at hs
          simp at hs
        · simp [dimensionEqSpec, hc, hbe2, hnn.1, hnn.2, hf, rok, obind]
    · have hcf : Unit.comparable u u2 = false := by
        cases hx : Unit.comparable u u2
        · rfl
        · exact absurd hx hc
      simp [dimensionEqSpec, hcf, rok, obind]
  · intro n l r sv rv hl hi hd hr
    cases sv
    case Ident s q => simp [Value.isIdent] at hi
    case Dimension m u => simp [Value.isDimension] at hd
    all_goals simp [equalsF, hl, hr, rok, obind]
  · intro n l r s1 q1 hl
    simp [equalsF, hl, rok, obind]

/-- Witness for the amended C1: `96px == 1in` is dimension equality through
the conversion table and holds; `true == true` goes through the structural
fallback. -/
theorem equals_amended_witness :
    evalF (0 + 3) (.BinaryOp (.Dimension 96 (.Known .Px)) .Equal (.Dimension 1 (.Known .In)))
      = some (.ok (Value.bool (dimensionEqSpec 96 (.Known .Px) 1 (.Known .In)))) ∧
    dimensionEqSpec 96 (.Known .Px) 1 (.Known .In) = true ∧
    equalsF (1 + 1) Value.True Value.True = some (.ok (Value.beq Value.True Value.True)) := by
  refine ⟨equals_amended.1 0 96 (.Known .Px) 1 (.Known .In), ?_, ?_⟩
  · norm_num [dimensionEqSpec, Unit.comparable, Unit.beq, conversionFactor, pxPer]
  · exact equals_amended.2.1 1 Value.True Value.True Value.True Value.True
      (by simp [evalF, rok]) rfl rfl (by simp [evalF, rok])

/-- C5 counterexample: an unquoted empty `Ident` is *not* equivalent to
`Null` for truthiness: `is_true` has no special case for it, so it is
truthy while `Null` is falsy — even though `is_null` classifies both as
null. -/
theorem empty_ident_truthy_counterexample :
    is_trueF 1 (.Ident "" .None) = some (.ok true) ∧
    is_trueF 1 Value.Null = some (.ok false) ∧
    Value.is_null (.Ident "" .None) = true ∧
    Value.is_null Value.Null = true := by
  refine ⟨?_, ?_, rfl, rfl⟩ <;> simp [is_trueF, rok]

/-- C5 (amended): an unquoted `Ident` whose text is empty is equivalent to
`Null` for `is_null` and hence for list filtering — when a `List` or an
`ArgList` is displayed, leading `Null` elements and leading unquoted empty
`Ident` elements are omitted and do not change the output — but for
truthiness it behaves like any other string: `is_true` returns `true` for
it, while `is_true Null` is `false`. -/
theorem empty_ident_null_equivalence :
    (Value.is_null (.Ident "" .None) = true ∧ Value.is_null Value.Null = true) ∧
    (∀ (n : Nat) (vs : List Value) (sep : ListSeparator) (br : Brackets),
        displayF (n + 1) (.List (Value.Null :: vs) sep br) =
          displayF (n + 1) (.List vs sep br) ∧
        displayF (n + 1) (.List (.Ident "" .None :: vs) sep br) =
          displayF (n + 1) (.List vs sep br)) ∧
    (∀ (n : Nat) (vs : List Value),
        displayF (n + 1) (.ArgList (Value.Null :: vs)) =
          displayF (n + 1) (.ArgList vs) ∧
        displayF (n + 1) (.ArgList (.Ident "" .None :: vs)) =
          displayF (n + 1) (.ArgList vs)) ∧
    (∀ n : Nat, is_trueF (n + 1) (.Ident "" .None) = some (.ok true)) ∧
    (∀ n : Nat, is_trueF (n + 1) Value.Null = some (.ok false)) := by
  refine ⟨⟨rfl, rfl⟩, ?_, ?_, ?_, ?_⟩
  · intro n vs sep br
    constructor <;>
      simp [displayF, List.filter_cons, show Value.is_null (.Ident "" .None) = true from rfl,
        show Value.is_null Value.Null = true from rfl]
  · intro n vs
    constructor <;>
      simp [displayF, List.filter_cons, show Value.is_null (.Ident "" .None) = true from rfl,
        show Value.is_null Value.Null = true from rfl]
  · intro n
    simp [is_trueF, rok]
  · intro n
    simp [is_trueF, rok]

/-! ## Mixin argument binding, NeverEmptyVec and Builtin identity -/

/-- The source's enumerate-based binding loop agrees with the spec-side
recursion at every starting position. -/
theorem bindLoop_enumFrom (params : List FuncArg) :
    ∀ (idx : Nat) (scope : Scope) (ca : CallArgs),
      bindLoop (params.enumFrom idx) scope ca = bindParamsSpec idx params scope ca := by
  induction params with
  | nil => intro idx scope ca; rfl
  | cons p rest ihp =>
    intro idx scope ca
    simp only [List.enumFrom, bindLoop, bindParamsSpec]
    rcases h1 : ca.remove (toString idx) with ⟨ov, ca1⟩
    cases ov <;> dsimp only
    · rcases h2 : ca1.remove p.name with ⟨ov2, ca2⟩
      cases ov2 <;> dsimp only
      · rcases hd : p.default with _ | v <;> dsimp only
        all_goals first | rfl | exact ihp _ _ _
      · exact ihp _ _ _
    · exact ihp _ _ _

/-- C4 (confirmed): `Mixin::args` binds each declared parameter in
declaration order from the call's positional slot matched by numeric index
first, then from the keyword slot matched by the parameter name, then from
the declared default; if none exists it fails with
`Missing argument $name.`, and each bound value is inserted into the
mixin's scope under the parameter name. The first conjunct equates the
source's loop with `bindParamsSpec`, the spec rule written out verbatim;
the others characterize one binding step in each of the four cases. -/
theorem mixin_bindArgs_spec :
    (∀ (m : Mixin) (ca : CallArgs),
        m.bindArgs ca =
          match bindParamsSpec 0 m.args.val m.scope ca with
          | .ok (scope, ca1) => .ok (Mixin.new scope m.args m.body, ca1)
          | .error e => .error e) ∧
    (∀ (idx : Nat) (p : FuncArg) (rest : List (Nat × FuncArg)) (scope : Scope)
        (ca ca1 : CallArgs) (v : Value),
        ca.remove (toString idx) = (some v, ca1) →
        bindLoop ((idx, p) :: rest) scope ca =
          bindLoop rest (scope.insert_var p.name v) ca1) ∧
    (∀ (idx : Nat) (p : FuncArg) (rest : List (Nat × FuncArg)) (scope : Scope)
        (ca ca1 ca2 : CallArgs) (v : Value),
        ca.remove (toString idx) = (none, ca1) →
        ca1.remove p.name = (some v, ca2) →
        bindLoop ((idx, p) :: rest) scope ca =
          bindLoop rest (scope.insert_var p.name v) ca2) ∧
    (∀ (idx : Nat) (p : FuncArg) (rest : List (Nat × FuncArg)) (scope : Scope)
        (ca ca1 ca2 : CallArgs) (v : Value),
        ca.remove (toString idx) = (none, ca1) →
        ca1.remove p.name = (none, ca2) →
        p.default = some v →
        bindLoop ((idx, p) :: rest) scope ca =
          bindLoop rest (scope.insert_var p.name v) ca2) ∧
    (∀ (idx : Nat) (p : FuncArg) (rest : List (Nat × FuncArg)) (scope : Scope)
        (ca ca1 ca2 : CallArgs),
        ca.remove (toString idx) = (none, ca1) →
        ca1.remove p.name = (none, ca2) →
        p.default = none →
        bindLoop ((idx, p) :: rest) scope ca =
          .error ("Missing argument $" ++ p.name ++ ".")) := by
  refine ⟨?_, ?_, ?_, ?_, ?_⟩
  · intro m ca
    have he : m.args.val.enum = m.args.val.enumFrom 0 := rfl
    simp only [Mixin.bindArgs, he, bindLoop_enumFrom]
  · intro idx p rest scope ca ca1 v h1
    simp only [bindLoop, h1]
  · intro idx p rest scope ca ca1 ca2 v h1 h2
    simp only [bindLoop, h1, h2]
  · intro idx p rest scope ca ca1 ca2 v h1 h2 hd
    simp only [bindLoop, h1, h2, hd]
  · intro idx p rest scope ca ca1 ca2 h1 h2 hd
    simp only [bindLoop, h1, h2, hd]

/-- Witness for C4: one positional binding step and one missing-argument
failure at concrete inputs. -/
theorem mixin_bindArgs_spec_witness :
    CallArgs.remove ⟨[("0", Value.Null)]⟩ (toString 0) = (some Value.Null, ⟨[]⟩) ∧
    bindLoop [(0, ⟨"x", none⟩)] ⟨[]⟩ ⟨[("0", Value.Null)]⟩ =
      bindLoop [] (Scope.insert_var ⟨[]⟩ "x" Value.Null) ⟨[]⟩ ∧
    CallArgs.remove ⟨[]⟩ (toString 0) = (none, ⟨[]⟩) ∧
    CallArgs.remove ⟨[]⟩ "x" = (none, ⟨[]⟩) ∧
    bindLoop [(0, ⟨"x", none⟩)] ⟨[]⟩ ⟨[]⟩ = .error ("Missing argument $" ++ "x" ++ ".") := by
  refine ⟨?_, ?_, ?_, ?_, ?_⟩
  · rfl
  · exact mixin_bindArgs_spec.2.1 0 ⟨"x", none⟩ [] ⟨[]⟩ ⟨[("0", Value.Null)]⟩ ⟨[]⟩
      Value.Null (by rfl)
  · rfl
  · rfl
  · exact mixin_bindArgs_spec.2.2.2.2 0 ⟨"x", none⟩ [] ⟨[]⟩ ⟨[]⟩ ⟨[]⟩ ⟨[]⟩
      (by rfl) (by rfl) rfl

/-- C9 (confirmed): a `NeverEmptyVec` always keeps at least one element:
`push` appends only to `rest`, `pop` removes only from `rest` (returning
`none` once `rest` is empty and never touching `first`), and `last` always
returns an element — the last of `rest`, falling back to `first` when
`rest` is empty — so `last` is total and never fails on any reachable
`NeverEmptyVec`. -/
theorem neverEmptyVec_invariant :
    (∀ (T : Type) (v : NeverEmptyVec T) (x : T),
        (v.push x).first = v.first ∧ (v.push x).rest = v.rest ++ [x]) ∧
    (∀ (T : Type) (v : NeverEmptyVec T), (v.pop).2.first = v.first) ∧
    (∀ (T : Type) (v : NeverEmptyVec T), v.rest = [] → v.pop = (none, v)) ∧
    (∀ (T : Type) (v : NeverEmptyVec T), v.rest = [] → v.last = v.first) ∧
    (∀ (T : Type) (v : NeverEmptyVec T) (ys : List T) (x : T),
        v.rest = ys ++ [x] → v.last = x) ∧
    (∀ (T : Type) (v : NeverEmptyVec T) (x : T), (v.push x).last = x) := by
  refine ⟨?_, ?_, ?_, ?_, ?_, ?_⟩
  · intro T v x
    exact ⟨rfl, rfl⟩
  · intro T v
    simp only [NeverEmptyVec.pop]
    split <;> rfl
  · intro T v h
    simp [NeverEmptyVec.pop, h]
  · intro T v h
    simp [NeverEmptyVec.last, h]
  · intro T v ys x h
    simp [NeverEmptyVec.last, h, List.getLast?_concat]
  · intro T v x
    simp [NeverEmptyVec.push, NeverEmptyVec.last, List.getLast?_concat]

/-- Witness for C9 at concrete inputs: a fresh vector pops `none` and
`last` falls back to `first`; after a push, `last` is the pushed element. -/
theorem neverEmptyVec_invariant_witness :
    (NeverEmptyVec.new (7 : Nat)).rest = [] ∧
    (NeverEmptyVec.new (7 : Nat)).pop = (none, NeverEmptyVec.new 7) ∧
    (NeverEmptyVec.new (7 : Nat)).last = 7 ∧
    ((NeverEmptyVec.new (7 : Nat)).push 9).last = 9 := by
  refine ⟨rfl, ?_, ?_, ?_⟩
  · exact neverEmptyVec_invariant.2.2.1 Nat (NeverEmptyVec.new 7) rfl
  · exact neverEmptyVec_invariant.2.2.2.1 Nat (NeverEmptyVec.new 7) rfl
  · exact neverEmptyVec_invariant.2.2.2.2.2 Nat (NeverEmptyVec.new 7) 9

/-- C10 (confirmed): builtin identity is by registration order, not by
body: `Builtin::new` takes its id from the monotonically increasing
counter, equality compares only ids, so a clone of a builtin equals the
original while two builtins from distinct `Builtin::new` calls are unequal
even though they wrap the same function pointer. -/
theorem builtin_identity (bodyF : CallArgs → Scope → Except String Value) (c : Nat) :
    Builtin.beq (Builtin.clone (Builtin.new bodyF c).1) (Builtin.new bodyF c).1 = true ∧
    (Builtin.new bodyF c).2 = c + 1 ∧
    Builtin.beq (Builtin.new bodyF c).1 (Builtin.new bodyF ((Builtin.new bodyF c).2)).1
      = false ∧
    (Builtin.new bodyF ((Builtin.new bodyF c).2)).1.body = (Builtin.new bodyF c).1.body := by
  refine ⟨?_, rfl, ?_, rfl⟩
  · simp [Builtin.new, Builtin.clone, Builtin.beq]
  · simp only [Builtin.new, Builtin.beq]
    simp

end Grass
